import Mathlib

/-!
Verification development for the spat in-memory key-value store
(spat.c, the version of the source that defines spset_generic, spget,
sptype, del, getexpireat, sp_db_nitems, sadd, sismember, srem, scard,
lpush, llen, lpop, rpush, hset and hget).

Shallow embedding. The dshash table (a Postgres collaborator) is a
concurrent hash map keyed by dss byte strings; its observable content is
modelled as an association list from key bytes to entries, with
dshash_find as association lookup, dshash_find_or_insert as
lookup-or-cons, and dshash_delete_key as erase. A dss (dsa-allocated,
length-prefixed, NUL-terminated byte string) compares by length and then
by memcmp over all content bytes, so dss equality coincides with equality
of the content byte sequence; keys and values are therefore modelled as
List Nat (byte sequences). The list value kind stores its elements in a
doubly linked chain of arena nodes; its observable content is the
sequence of element strings, modelled as List Nat lists, with lpush as
cons and lpop as head removal. The uint32 size fields are modelled as Nat
reduced modulo 2 ^ 32 at each increment and decrement. TimestampTz is a
64-bit integer count of microseconds, modelled as Int; intervals are
modelled by their microsecond time component (timestamptz_pl_interval
adds it directly when the month and day parts are zero).

dshash_find_or_insert returns an entry whose non-key fields are
uninitialized memory on a miss (dshash allocates without zeroing and
copies only the key). Every operation that calls it therefore takes an
explicit junk : SpatDBEntry argument holding the arbitrary contents that
a freshly inserted, not-yet-written entry exposes. Reads through the
C union arm that do not match what was last stored there (type punning),
assertion failures and error exits are modelled as Option.none: those
executions are outside the defined behaviour of the source.
-/

set_option maxRecDepth 4000

namespace Spat

/-- Byte string content of a dss (excluding the trailing NUL terminator
that dss_new appends and dss_cmp excludes). -/
abbrev Str := List Nat

/-- spValueType from spat.c: the discriminant of the value union. -/
inductive spValueType where
  | SPVAL_INVALID
  | SPVAL_NULL
  | SPVAL_STRING
  | SPVAL_SET
  | SPVAL_LIST
  | SPVAL_HASH
deriving DecidableEq, Repr

/-- The value union of SpatDBEntry. ustring holds the copied varlena
bytes of a string value; uset holds the contents of the secondary
dshash set index together with the separately stored uint32 size field;
ulist holds the element sequence of the doubly linked list together with
the separately stored uint32 size field; uhash holds the field-value
pairs of the secondary hash index with its size field. -/
inductive SpatValueU where
  | ustring (bytes : Str)
  | uset (elems : List Str) (size : Nat)
  | ulist (elems : List Str) (size : Nat)
  | uhash (fields : List (Str × Str)) (size : Nat)
deriving DecidableEq, Repr

/-- SpatDBEntry from spat.c, minus the key (the key is the association
list position in the model). -/
structure SpatDBEntry where
  expireat : Int
  valtyp : spValueType
  value : SpatValueU
deriving DecidableEq, Repr

/-- The observable content of the top-level dshash table. -/
abbrev State := List (Str × SpatDBEntry)

/-- Modulus of the uint32 size fields. -/
def UINT32_MOD : Nat := 4294967296

/-- SpMaxTTL = DT_NOEND = INT64_MAX, the no-expiry sentinel. -/
def SpMaxTTL : Int := 9223372036854775807

/-- MIN_TIMESTAMP from Postgres datetime.h. -/
def MIN_TIMESTAMP : Int := -211813488000000000

/-- END_TIMESTAMP from Postgres datetime.h. -/
def END_TIMESTAMP : Int := 9223371331200000000

/-- timestamptz_pl_interval on a finite timestamp and a pure-time
interval: the sum, if it is a valid timestamp, otherwise an error. -/
def tsPlusInterval (t iv : Int) : Option Int :=
  if MIN_TIMESTAMP ≤ t + iv ∧ t + iv < END_TIMESTAMP then some (t + iv) else none

/-- dshash_find on the top-level table: first entry with this key. -/
def dbFind : State → Str → Option SpatDBEntry
  | [], _ => none
  | (k', e) :: rest, k => if k' = k then some e else dbFind rest k

/-- Writing back through the entry pointer returned by a successful
dshash_find or dshash_find_or_insert: replace the found entry. -/
def dbUpdate : State → Str → SpatDBEntry → State
  | [], _, _ => []
  | (k', e') :: rest, k, e =>
      if k' = k then (k, e) :: rest else (k', e') :: dbUpdate rest k e

/-- dshash_delete_key on the top-level table: remove the entry with this
key if present (the payload is leaked, not torn down; only the table
node disappears, which is all the model tracks). -/
def dbErase : State → Str → State
  | [], _ => []
  | (k', e') :: rest, k =>
      if k' = k then rest else (k', e') :: dbErase rest k

/-- sp_db_nitems: a sequential scan counting every live entry. -/
def nitems (s : State) : Nat := s.length

/-- The name strings produced by spTypeName. -/
def typeNameString : String := "string"

/-- spTypeName output for SPVAL_INVALID. -/
def typeNameInvalid : String := "invalid"

/-- spTypeName output for SPVAL_NULL. -/
def typeNameNull : String := "null"

/-- spTypeName output for SPVAL_SET. -/
def typeNameSet : String := "set"

/-- spTypeName output for SPVAL_LIST. -/
def typeNameList : String := "list"

/-- spTypeName from spat.c. The switch has no case for SPVAL_HASH and
the function has no return after the switch, so that argument falls off
the end of a non-void function: undefined behaviour, modelled as none. -/
def spTypeName : spValueType → Option String
  | .SPVAL_STRING => some typeNameString
  | .SPVAL_INVALID => some typeNameInvalid
  | .SPVAL_NULL => some typeNameNull
  | .SPVAL_SET => some typeNameSet
  | .SPVAL_LIST => some typeNameList
  | .SPVAL_HASH => none

/-- The SPValue shell value returned to the caller. sundef models the
palloc-ed SPValue that makeSpvalFromEntry returns without writing any
field (the SPVAL_INVALID and SPVAL_NULL cases break out of the switch
immediately, and SPVAL_HASH has no case at all). -/
inductive SPValue where
  | sstring (bytes : Str)
  | sset (size : Nat)
  | slist (size : Nat)
  | sundef
deriving DecidableEq, Repr

/-- makeSpvalFromEntry from spat.c. The switch reads the union arm
selected by valtyp; if the arm does not hold what was last stored there
the read is type punning, modelled as none. -/
def makeSpvalFromEntry (e : SpatDBEntry) : Option SPValue :=
  match e.valtyp, e.value with
  | .SPVAL_INVALID, _ => some .sundef
  | .SPVAL_NULL, _ => some .sundef
  | .SPVAL_HASH, _ => some .sundef
  | .SPVAL_STRING, .ustring b => some (.sstring b)
  | .SPVAL_SET, .uset _ sz => some (.sset sz)
  | .SPVAL_LIST, .ulist _ sz => some (.slist sz)
  | _, _ => none

/-- spset_generic with nx and xx left NULL (their non-NULL case is an
unconditional error) and a non-NULL value. Arguments: state, key bytes,
value bytes, optional TTL interval, current timestamp, and the junk
contents of a freshly inserted entry. On a miss dshash_find_or_insert
leaves every non-key field of the new entry as junk; expireat is then
assigned only when a TTL interval is given, the valtyp and the string
arm are always assigned. Returns the echoed SPValue and the new state;
none only when timestamptz_pl_interval raises an out-of-range error. -/
def spset (s : State) (k v : Str) (ex : Option Int) (now : Int)
    (junk : SpatDBEntry) : Option (SPValue × State) :=
  match dbFind s k with
  | none =>
      match ex with
      | none =>
          let e : SpatDBEntry := ⟨junk.expireat, .SPVAL_STRING, .ustring v⟩
          (makeSpvalFromEntry e).map (fun r => (r, (k, e) :: s))
      | some iv =>
          match tsPlusInterval now iv with
          | none => none
          | some t =>
              let e : SpatDBEntry := ⟨t, .SPVAL_STRING, .ustring v⟩
              (makeSpvalFromEntry e).map (fun r => (r, (k, e) :: s))
  | some e0 =>
      match ex with
      | none =>
          let e : SpatDBEntry := ⟨e0.expireat, .SPVAL_STRING, .ustring v⟩
          (makeSpvalFromEntry e).map (fun r => (r, dbUpdate s k e))
      | some iv =>
          match tsPlusInterval now iv with
          | none => none
          | some t =>
              let e : SpatDBEntry := ⟨t, .SPVAL_STRING, .ustring v⟩
              (makeSpvalFromEntry e).map (fun r => (r, dbUpdate s k e))

/-- spget from spat.c: a read-only dshash_find. Outer none is type
punning inside makeSpvalFromEntry; some none is the SQL NULL returned
when the key is absent. -/
def spget (s : State) (k : Str) : Option (Option SPValue) :=
  match dbFind s k with
  | none => some none
  | some e => (makeSpvalFromEntry e).map some

/-- sptype from spat.c: SPVAL_NULL when the key is absent, otherwise the
stored discriminant, rendered through spTypeName. -/
def sptype (s : State) (k : Str) : Option String :=
  match dbFind s k with
  | none => spTypeName .SPVAL_NULL
  | some e => spTypeName e.valtyp

/-- del from spat.c: dshash_delete_key, reporting presence. -/
def del (s : State) (k : Str) : Bool × State :=
  ((dbFind s k).isSome, dbErase s k)

/-- getexpireat from spat.c: SQL NULL when the key is absent or the
stored timestamp is the SpMaxTTL sentinel, otherwise the timestamp. -/
def getexpireat (s : State) (k : Str) : Option Int :=
  match dbFind s k with
  | none => none
  | some e => if e.expireat = SpMaxTTL then none else some e.expireat

/-- sadd from spat.c. Miss on the top-level table: the new entry becomes
a set with a fresh empty secondary index and size 0, and the element is
then inserted into it, giving size 1; expireat stays uninitialized
(junk). Hit: the code asserts SPVAL_SET and attaches the handle stored
in the set arm, which is only defined when the set arm is what was last
stored, so any other arm is none; the element is inserted into the
secondary index and size is incremented exactly when it was new. -/
def sadd (s : State) (k m : Str) (junk : SpatDBEntry) : Option State :=
  match dbFind s k with
  | none =>
      some ((k, ⟨junk.expireat, .SPVAL_SET, .uset [m] 1⟩) :: s)
  | some e =>
      match e.value with
      | .uset elems sz =>
          if m ∈ elems then
            some (dbUpdate s k ⟨e.expireat, e.valtyp, .uset elems sz⟩)
          else
            some (dbUpdate s k
              ⟨e.expireat, e.valtyp, .uset (m :: elems) ((sz + 1) % UINT32_MOD)⟩)
      | _ => none

/-- sismember from spat.c: false when the key is absent, otherwise a
read-only membership probe of the secondary index reached through the
set arm handle (other arms: punning, none). -/
def sismember (s : State) (k m : Str) : Option Bool :=
  match dbFind s k with
  | none => some false
  | some e =>
      match e.value with
      | .uset elems _ => some (decide (m ∈ elems))
      | _ => none

/-- srem from spat.c: 0 when the key is absent; otherwise delete the
member from the secondary index reached through the set arm handle and
decrement size exactly when it was present, returning 1 or 0. -/
def srem (s : State) (k m : Str) : Option (Int × State) :=
  match dbFind s k with
  | none => some (0, s)
  | some e =>
      match e.value with
      | .uset elems sz =>
          if m ∈ elems then
            some (1, dbUpdate s k
              ⟨e.expireat, e.valtyp,
                .uset (elems.erase m) ((sz + (UINT32_MOD - 1)) % UINT32_MOD)⟩)
          else
            some (0, s)
      | _ => none

/-- scard from spat.c: a read-only dshash_find; the size field is read
only when valtyp is SPVAL_SET, otherwise SQL NULL (some none) is
returned, for absent keys as well as for entries of any other kind. -/
def scard (s : State) (k : Str) : Option (Option Nat) :=
  match dbFind s k with
  | none => some none
  | some e =>
      if e.valtyp = .SPVAL_SET then
        match e.value with
        | .uset _ sz => some (some sz)
        | _ => none
      else some none

/-- lpush from spat.c. Miss: the new entry becomes a list holding the
one element, size 1. Hit: the code reads value.list.size without
checking valtyp, so the list arm must be what was last stored (other
arms: punning, none); size 0 reinitializes head and tail to the one new
element, otherwise the element is linked in front of the head and size
incremented. valtyp is assigned only on the miss path. -/
def lpush (s : State) (k e : Str) (junk : SpatDBEntry) : Option State :=
  match dbFind s k with
  | none =>
      some ((k, ⟨junk.expireat, .SPVAL_LIST, .ulist [e] 1⟩) :: s)
  | some ent =>
      match ent.value with
      | .ulist elems sz =>
          if sz = 0 then
            some (dbUpdate s k ⟨ent.expireat, ent.valtyp, .ulist [e] 1⟩)
          else
            some (dbUpdate s k
              ⟨ent.expireat, ent.valtyp, .ulist (e :: elems) ((sz + 1) % UINT32_MOD)⟩)
      | _ => none

/-- llen from spat.c. It calls dshash_find_or_insert: a miss inserts a
new entry whose every non-key field stays uninitialized (junk) and
returns SQL NULL; a hit reads value.list.size without checking valtyp
(list arm required, other arms: punning, none) and changes nothing. -/
def llen (s : State) (k : Str) (junk : SpatDBEntry) :
    Option (Option Nat × State) :=
  match dbFind s k with
  | none => some (none, (k, junk) :: s)
  | some ent =>
      match ent.value with
      | .ulist _ sz => some (some sz, s)
      | _ => none

/-- lpop from spat.c. It calls dshash_find_or_insert: a miss inserts a
junk entry and returns SQL NULL; a hit whose valtyp is not SPVAL_LIST,
or whose size is 0, returns SQL NULL and changes nothing; otherwise the
head element is unlinked, freed and returned and size decremented. A
stored size that disagrees with an empty chain would dereference the
invalid head pointer (none). -/
def lpop (s : State) (k : Str) (junk : SpatDBEntry) :
    Option (Option Str × State) :=
  match dbFind s k with
  | none => some (none, (k, junk) :: s)
  | some ent =>
      if ent.valtyp = .SPVAL_LIST then
        match ent.value with
        | .ulist elems sz =>
            if sz = 0 then some (none, s)
            else
              match elems with
              | [] => none
              | h :: t =>
                  some (some h, dbUpdate s k
                    ⟨ent.expireat, ent.valtyp,
                      .ulist t ((sz + (UINT32_MOD - 1)) % UINT32_MOD)⟩)
        | _ => none
      else some (none, s)

/-- rpush from spat.c. The guard reads value.list.size whenever the
entry was found (list arm required on a hit). A miss, or a hit with size
0, reinitializes the entry: valtyp is assigned SPVAL_LIST and the list
becomes the one new element with size 1. Otherwise the element is linked
after the tail and size incremented. -/
def rpush (s : State) (k e : Str) (junk : SpatDBEntry) : Option State :=
  match dbFind s k with
  | none =>
      some ((k, ⟨junk.expireat, .SPVAL_LIST, .ulist [e] 1⟩) :: s)
  | some ent =>
      match ent.value with
      | .ulist elems sz =>
          if sz = 0 then
            some (dbUpdate s k ⟨ent.expireat, .SPVAL_LIST, .ulist [e] 1⟩)
          else
            some (dbUpdate s k
              ⟨ent.expireat, ent.valtyp, .ulist (elems ++ [e]) ((sz + 1) % UINT32_MOD)⟩)
      | _ => none

/-- Lookup of a field in the secondary hash index contents. -/
def hashFind : List (Str × Str) → Str → Option Str
  | [], _ => none
  | (f', v) :: rest, f => if f' = f then some v else hashFind rest f

/-- Overwrite of the value stored under an existing field. -/
def hashUpdate : List (Str × Str) → Str → Str → List (Str × Str)
  | [], _, _ => []
  | (f', v') :: rest, f, v =>
      if f' = f then (f, v) :: rest else (f', v') :: hashUpdate rest f v

/-- hset from spat.c. Miss on the top-level table: the new entry becomes
a hash with a fresh empty secondary index and size 0, and the field is
then inserted, giving size 1; expireat stays uninitialized (junk). Hit:
the code asserts SPVAL_HASH and attaches the handle stored in the hash
arm (other arms: punning, none); a new field is inserted and size
incremented, an existing field has only its value overwritten and size
stays unchanged. -/
def hset (s : State) (k f v : Str) (junk : SpatDBEntry) : Option State :=
  match dbFind s k with
  | none =>
      some ((k, ⟨junk.expireat, .SPVAL_HASH, .uhash [(f, v)] 1⟩) :: s)
  | some ent =>
      match ent.value with
      | .uhash fields sz =>
          match hashFind fields f with
          | none =>
              some (dbUpdate s k
                ⟨ent.expireat, ent.valtyp, .uhash ((f, v) :: fields) ((sz + 1) % UINT32_MOD)⟩)
          | some _ =>
              some (dbUpdate s k
                ⟨ent.expireat, ent.valtyp, .uhash (hashUpdate fields f v) sz⟩)
      | _ => none

/-- hget from spat.c: SQL NULL (some none) when the key is absent or its
valtyp is not SPVAL_HASH; otherwise a read-only probe of the secondary
index reached through the hash arm handle (other arms: punning, none),
returning the field value or SQL NULL. -/
def hget (s : State) (k f : Str) : Option (Option Str) :=
  match dbFind s k with
  | none => some none
  | some ent =>
      if ent.valtyp = .SPVAL_HASH then
        match ent.value with
        | .uhash fields _ => some (hashFind fields f)
        | _ => none
      else some none

/-- One invocation of a state-changing spat command, with its arguments
and, for the commands that call dshash_find_or_insert, the junk contents
a freshly inserted entry exposes. -/
inductive SpatOp where
  | opSpset (k v : Str) (ex : Option Int) (now : Int) (junk : SpatDBEntry)
  | opDel (k : Str)
  | opSadd (k m : Str) (junk : SpatDBEntry)
  | opSrem (k m : Str)
  | opLpush (k e : Str) (junk : SpatDBEntry)
  | opRpush (k e : Str) (junk : SpatDBEntry)
  | opLpop (k : Str) (junk : SpatDBEntry)
  | opLlen (k : Str) (junk : SpatDBEntry)
  | opHset (k f v : Str) (junk : SpatDBEntry)

/-- The state transition of one command invocation. -/
def step (s : State) : SpatOp → Option State
  | .opSpset k v ex now junk => (spset s k v ex now junk).map Prod.snd
  | .opDel k => some (del s k).2
  | .opSadd k m junk => sadd s k m junk
  | .opSrem k m => (srem s k m).map Prod.snd
  | .opLpush k e junk => lpush s k e junk
  | .opRpush k e junk => rpush s k e junk
  | .opLpop k junk => (lpop s k junk).map Prod.snd
  | .opLlen k junk => (llen s k junk).map Prod.snd
  | .opHset k f v junk => hset s k f v junk

/-- States reachable from the initially empty database by successful
command invocations, with arbitrary (adversarial) junk contents for
freshly inserted entries: exactly what the source guarantees, since
dshash never zeroes the entries it hands out. -/
inductive Reachable : State → Prop where
  | init : Reachable []
  | next {s s' : State} {op : SpatOp} :
      Reachable s → step s op = some s' → Reachable s'

/-- The junk entry that an operation inserts verbatim into the table on
a miss and then leaves behind without writing any field. Only llen and
lpop do this; every other operation initializes the discriminant and
the union arm of what it inserts before releasing the lock. -/
def opInsertedJunk : SpatOp → Option SpatDBEntry
  | .opLpop _ junk => some junk
  | .opLlen _ junk => some junk
  | _ => none

/-- States reachable when the uninitialized discriminant of the entries
that llen and lpop insert and leave behind is read back as
SPVAL_INVALID rather than colliding with a real value kind. -/
inductive ReachableInv : State → Prop where
  | init : ReachableInv []
  | next {s s' : State} {op : SpatOp} :
      ReachableInv s →
      (∀ j, opInsertedJunk op = some j → j.valtyp = .SPVAL_INVALID) →
      step s op = some s' → ReachableInv s'

/-- The size consistency the specification claims, literally: an entry
whose value kind is Set, List or Hash stores, in its size field, exactly
the number of live elements of its nested structure. -/
def entryConsistentExact (e : SpatDBEntry) : Bool :=
  match e.valtyp, e.value with
  | .SPVAL_SET, .uset elems sz => sz == elems.length
  | .SPVAL_SET, _ => false
  | .SPVAL_LIST, .ulist elems sz => sz == elems.length
  | .SPVAL_LIST, _ => false
  | .SPVAL_HASH, .uhash fields sz => sz == fields.length
  | .SPVAL_HASH, _ => false
  | _, _ => true

/-- Size consistency of every entry of the database, literally as
claimed. -/
def sizeConsistentExact (s : State) : Bool :=
  s.all (fun p => entryConsistentExact p.2)

/-- Size consistency up to the uint32 width of the stored size field:
the size field holds the live element count reduced modulo 2 ^ 32 (the
two agree whenever the count is below 2 ^ 32). -/
def entryConsistent (e : SpatDBEntry) : Bool :=
  match e.valtyp, e.value with
  | .SPVAL_SET, .uset elems sz => sz == elems.length % UINT32_MOD
  | .SPVAL_SET, _ => false
  | .SPVAL_LIST, .ulist elems sz => sz == elems.length % UINT32_MOD
  | .SPVAL_LIST, _ => false
  | .SPVAL_HASH, .uhash fields sz => sz == fields.length % UINT32_MOD
  | .SPVAL_HASH, _ => false
  | _, _ => true

/-- Size consistency modulo 2 ^ 32 of every entry of the database. -/
def sizeConsistent (s : State) : Bool :=
  s.all (fun p => entryConsistent p.2)

/-- Sequential composition of sadd calls on one key, one per member:
the serialization of N concurrent sadd callers. Each sadd holds the
exclusive dshash partition lock on the entry of this key from its
dshash_find_or_insert to its dshash_release_lock, so any concurrent
execution of these calls is equivalent to running them in the order of
lock acquisition; quantifying over the member list covers every order. -/
def saddAll (s : State) (k : Str) : List Str → SpatDBEntry → Option State
  | [], _ => some s
  | m :: rest, junk =>
      match sadd s k m junk with
      | none => none
      | some s' => saddAll s' k rest junk

/-- A concrete junk entry used in witnesses and counterexamples. -/
def junk0 : SpatDBEntry := ⟨0, .SPVAL_INVALID, .ustring []⟩

/-- The size field stored in the hash arm of the entry of a key, when
that key has an entry whose union arm last stored a hash. -/
def hashSizeAt (s : State) (k : Str) : Option Nat :=
  match dbFind s k with
  | none => none
  | some e =>
      match e.value with
      | .uhash _ sz => some sz
      | _ => none

/- ------------------------------------------------------------------
   Helper lemmas about the association list model of the dshash table.
   ------------------------------------------------------------------ -/

theorem dbFind_cons_self (s : State) (k : Str) (e : SpatDBEntry) :
    dbFind ((k, e) :: s) k = some e := by
  simp [dbFind]

theorem dbUpdate_cons_self (s : State) (k : Str) (e e' : SpatDBEntry) :
    dbUpdate ((k, e) :: s) k e' = (k, e') :: s := by
  simp [dbUpdate]

theorem dbFind_dbUpdate_self {s : State} {k : Str} {e : SpatDBEntry}
    (x : SpatDBEntry) (h : dbFind s k = some e) :
    dbFind (dbUpdate s k x) k = some x := by
  induction s with
  | nil => simp [dbFind] at h
  | cons p rest ih =>
      obtain ⟨k', e'⟩ := p
      by_cases hk : k' = k
      · subst hk
        simp [dbUpdate, dbFind]
      · simp only [dbFind, if_neg hk] at h
        simp [dbUpdate, dbFind, hk, ih h]

theorem dbFind_mem {s : State} {k : Str} {e : SpatDBEntry}
    (h : dbFind s k = some e) : (k, e) ∈ s := by
  induction s with
  | nil => simp [dbFind] at h
  | cons p rest ih =>
      obtain ⟨k', e'⟩ := p
      by_cases hk : k' = k
      · subst hk
        simp [dbFind] at h
        simp [h]
      · simp only [dbFind, if_neg hk] at h
        exact List.mem_cons_of_mem _ (ih h)

theorem mem_dbUpdate {s : State} {k : Str} {e : SpatDBEntry}
    {p : Str × SpatDBEntry} (h : p ∈ dbUpdate s k e) :
    p ∈ s ∨ p = (k, e) := by
  induction s with
  | nil => simp [dbUpdate] at h
  | cons q rest ih =>
      obtain ⟨k', e'⟩ := q
      by_cases hk : k' = k
      · subst hk
        simp only [dbUpdate, if_pos rfl] at h
        rcases List.mem_cons.mp h with h1 | h1
        · exact Or.inr h1
        · exact Or.inl (List.mem_cons_of_mem _ h1)
      · simp only [dbUpdate, if_neg hk] at h
        rcases List.mem_cons.mp h with h1 | h1
        · exact Or.inl (by simp [h1])
        · rcases ih h1 with h2 | h2
          · exact Or.inl (List.mem_cons_of_mem _ h2)
          · exact Or.inr h2

theorem mem_dbErase {s : State} {k : Str} {p : Str × SpatDBEntry}
    (h : p ∈ dbErase s k) : p ∈ s := by
  induction s with
  | nil => simp [dbErase] at h
  | cons q rest ih =>
      obtain ⟨k', e'⟩ := q
      by_cases hk : k' = k
      · subst hk
        simp only [dbErase, if_pos rfl] at h
        exact List.mem_cons_of_mem _ h
      · simp only [dbErase, if_neg hk] at h
        rcases List.mem_cons.mp h with h1 | h1
        · exact h1 ▸ List.mem_cons_self _ _
        · exact List.mem_cons_of_mem _ (ih h1)

theorem hashFind_hashUpdate_self {fields : List (Str × Str)} {f : Str}
    {v0 : Str} (v : Str) (h : hashFind fields f = some v0) :
    hashFind (hashUpdate fields f v) f = some v := by
  induction fields with
  | nil => simp [hashFind] at h
  | cons q rest ih =>
      obtain ⟨f', v'⟩ := q
      by_cases hf : f' = f
      · subst hf
        simp [hashUpdate, hashFind]
      · simp only [hashFind, if_neg hf] at h
        simp [hashUpdate, hashFind, hf, ih h]

theorem length_hashUpdate (fields : List (Str × Str)) (f v : Str) :
    (hashUpdate fields f v).length = fields.length := by
  induction fields with
  | nil => simp [hashUpdate]
  | cons q rest ih =>
      obtain ⟨f', v'⟩ := q
      by_cases hf : f' = f
      · subst hf
        simp [hashUpdate]
      · simp [hashUpdate, hf, ih]

theorem sizeConsistent_of_mem {s : State}
    (h : sizeConsistent s = true) {p : Str × SpatDBEntry} (hp : p ∈ s) :
    entryConsistent p.2 = true := by
  simp only [sizeConsistent, List.all_eq_true] at h
  exact h p hp

theorem sizeConsistent_cons {s : State} {k : Str} {e : SpatDBEntry}
    (h : sizeConsistent s = true) (he : entryConsistent e = true) :
    sizeConsistent ((k, e) :: s) = true := by
  simp only [sizeConsistent, List.all_eq_true] at h ⊢
  intro p hp
  rcases List.mem_cons.mp hp with h1 | h1
  · simpa [h1] using he
  · exact h p h1

theorem sizeConsistent_dbUpdate {s : State} {k : Str} {e : SpatDBEntry}
    (h : sizeConsistent s = true) (he : entryConsistent e = true) :
    sizeConsistent (dbUpdate s k e) = true := by
  simp only [sizeConsistent, List.all_eq_true] at h ⊢
  intro p hp
  rcases mem_dbUpdate hp with h1 | h1
  · exact h p h1
  · simpa [h1] using he

theorem sizeConsistent_dbErase {s : State} {k : Str}
    (h : sizeConsistent s = true) :
    sizeConsistent (dbErase s k) = true := by
  simp only [sizeConsistent, List.all_eq_true] at h ⊢
  intro p hp
  exact h p (mem_dbErase hp)

theorem entryConsistent_of_invalid {e : SpatDBEntry}
    (h : e.valtyp = .SPVAL_INVALID) : entryConsistent e = true := by
  obtain ⟨ea, evt, ev⟩ := e
  subst h
  cases ev <;> rfl

theorem entryConsistent_uset {ea : Int} {evt : spValueType}
    {elems elems' : List Str} {sz sz' : Nat}
    (hce : entryConsistent ⟨ea, evt, .uset elems sz⟩ = true)
    (hc : sz = elems.length % UINT32_MOD → sz' = elems'.length % UINT32_MOD) :
    entryConsistent ⟨ea, evt, .uset elems' sz'⟩ = true := by
  cases evt <;> simp_all [entryConsistent]

theorem entryConsistent_ulist {ea : Int} {evt : spValueType}
    {elems elems' : List Str} {sz sz' : Nat}
    (hce : entryConsistent ⟨ea, evt, .ulist elems sz⟩ = true)
    (hc : sz = elems.length % UINT32_MOD → sz' = elems'.length % UINT32_MOD) :
    entryConsistent ⟨ea, evt, .ulist elems' sz'⟩ = true := by
  cases evt <;> simp_all [entryConsistent]

theorem entryConsistent_uhash {ea : Int} {evt : spValueType}
    {fields fields' : List (Str × Str)} {sz sz' : Nat}
    (hce : entryConsistent ⟨ea, evt, .uhash fields sz⟩ = true)
    (hc : sz = fields.length % UINT32_MOD → sz' = fields'.length % UINT32_MOD) :
    entryConsistent ⟨ea, evt, .uhash fields' sz'⟩ = true := by
  cases evt <;> simp_all [entryConsistent]

theorem uintIncr (a : Nat) :
    (a % UINT32_MOD + 1) % UINT32_MOD = (a + 1) % UINT32_MOD := by
  simp only [UINT32_MOD]
  omega

theorem uintDecr (a : Nat) (ha : 1 ≤ a) :
    (a % UINT32_MOD + (UINT32_MOD - 1)) % UINT32_MOD = (a - 1) % UINT32_MOD := by
  simp only [UINT32_MOD]
  omega

theorem spset_sizeConsistent {s s' : State} {k v : Str} {ex : Option Int}
    {now : Int} {junk : SpatDBEntry} {r : SPValue}
    (h : sizeConsistent s = true) (hs : spset s k v ex now junk = some (r, s')) :
    sizeConsistent s' = true := by
  cases hf : dbFind s k with
  | none =>
      cases ex with
      | none =>
          simp only [spset, hf, makeSpvalFromEntry, Option.map_some',
            Option.some.injEq, Prod.mk.injEq] at hs
          rw [← hs.2]
          exact sizeConsistent_cons h rfl
      | some iv =>
          cases ht : tsPlusInterval now iv with
          | none => simp [spset, hf, ht] at hs
          | some t =>
              simp only [spset, hf, ht, makeSpvalFromEntry, Option.map_some',
                Option.some.injEq, Prod.mk.injEq] at hs
              rw [← hs.2]
              exact sizeConsistent_cons h rfl
  | some e0 =>
      cases ex with
      | none =>
          simp only [spset, hf, makeSpvalFromEntry, Option.map_some',
            Option.some.injEq, Prod.mk.injEq] at hs
          rw [← hs.2]
          exact sizeConsistent_dbUpdate h rfl
      | some iv =>
          cases ht : tsPlusInterval now iv with
          | none => simp [spset, hf, ht] at hs
          | some t =>
              simp only [spset, hf, ht, makeSpvalFromEntry, Option.map_some',
                Option.some.injEq, Prod.mk.injEq] at hs
              rw [← hs.2]
              exact sizeConsistent_dbUpdate h rfl

theorem del_sizeConsistent {s : State} {k : Str}
    (h : sizeConsistent s = true) : sizeConsistent (del s k).2 = true :=
  sizeConsistent_dbErase h

theorem sadd_sizeConsistent {s s' : State} {k m : Str} {junk : SpatDBEntry}
    (h : sizeConsistent s = true) (hs : sadd s k m junk = some s') :
    sizeConsistent s' = true := by
  cases hf : dbFind s k with
  | none =>
      simp only [sadd, hf, Option.some.injEq] at hs
      subst hs
      exact sizeConsistent_cons h rfl
  | some e =>
      obtain ⟨ea, evt, ev⟩ := e
      cases ev with
      | ustring b => simp [sadd, hf] at hs
      | ulist elems sz => simp [sadd, hf] at hs
      | uhash fields sz => simp [sadd, hf] at hs
      | uset elems sz =>
          have hce := sizeConsistent_of_mem h (dbFind_mem hf)
          by_cases hm : m ∈ elems
          · simp only [sadd, hf, if_pos hm, Option.some.injEq] at hs
            subst hs
            exact sizeConsistent_dbUpdate h hce
          · simp only [sadd, hf, if_neg hm, Option.some.injEq] at hs
            subst hs
            refine sizeConsistent_dbUpdate h (entryConsistent_uset hce ?_)
            intro h1
            rw [h1, List.length_cons]
            exact uintIncr _

theorem srem_sizeConsistent {s s' : State} {k m : Str} {r : Int}
    (h : sizeConsistent s = true) (hs : srem s k m = some (r, s')) :
    sizeConsistent s' = true := by
  cases hf : dbFind s k with
  | none =>
      simp only [srem, hf, Option.some.injEq, Prod.mk.injEq] at hs
      rw [← hs.2]
      exact h
  | some e =>
      obtain ⟨ea, evt, ev⟩ := e
      cases ev with
      | ustring b => simp [srem, hf] at hs
      | ulist elems sz => simp [srem, hf] at hs
      | uhash fields sz => simp [srem, hf] at hs
      | uset elems sz =>
          have hce := sizeConsistent_of_mem h (dbFind_mem hf)
          by_cases hm : m ∈ elems
          · simp only [srem, hf, if_pos hm, Option.some.injEq, Prod.mk.injEq] at hs
            rw [← hs.2]
            refine sizeConsistent_dbUpdate h (entryConsistent_uset hce ?_)
            intro h1
            rw [h1, List.length_erase_of_mem hm]
            exact uintDecr _ (List.length_pos_of_mem hm)
          · simp only [srem, hf, if_neg hm, Option.some.injEq, Prod.mk.injEq] at hs
            rw [← hs.2]
            exact h

theorem lpush_sizeConsistent {s s' : State} {k e0 : Str} {junk : SpatDBEntry}
    (h : sizeConsistent s = true) (hs : lpush s k e0 junk = some s') :
    sizeConsistent s' = true := by
  cases hf : dbFind s k with
  | none =>
      simp only [lpush, hf, Option.some.injEq] at hs
      subst hs
      exact sizeConsistent_cons h rfl
  | some e =>
      obtain ⟨ea, evt, ev⟩ := e
      cases ev with
      | ustring b => simp [lpush, hf] at hs
      | uset elems sz => simp [lpush, hf] at hs
      | uhash fields sz => simp [lpush, hf] at hs
      | ulist elems sz =>
          have hce := sizeConsistent_of_mem h (dbFind_mem hf)
          by_cases hz : sz = 0
          · simp only [lpush, hf, if_pos hz, Option.some.injEq] at hs
            subst hs
            refine sizeConsistent_dbUpdate h (entryConsistent_ulist hce ?_)
            intro h1
            simp [UINT32_MOD]
          · simp only [lpush, hf, if_neg hz, Option.some.injEq] at hs
            subst hs
            refine sizeConsistent_dbUpdate h (entryConsistent_ulist hce ?_)
            intro h1
            rw [h1, List.length_cons]
            exact uintIncr _

theorem rpush_sizeConsistent {s s' : State} {k e0 : Str} {junk : SpatDBEntry}
    (h : sizeConsistent s = true) (hs : rpush s k e0 junk = some s') :
    sizeConsistent s' = true := by
  cases hf : dbFind s k with
  | none =>
      simp only [rpush, hf, Option.some.injEq] at hs
      subst hs
      exact sizeConsistent_cons h rfl
  | some e =>
      obtain ⟨ea, evt, ev⟩ := e
      cases ev with
      | ustring b => simp [rpush, hf] at hs
      | uset elems sz => simp [rpush, hf] at hs
      | uhash fields sz => simp [rpush, hf] at hs
      | ulist elems sz =>
          have hce := sizeConsistent_of_mem h (dbFind_mem hf)
          by_cases hz : sz = 0
          · simp only [rpush, hf, if_pos hz, Option.some.injEq] at hs
            subst hs
            refine sizeConsistent_dbUpdate h ?_
            simp [entryConsistent, UINT32_MOD]
          · simp only [rpush, hf, if_neg hz, Option.some.injEq] at hs
            subst hs
            refine sizeConsistent_dbUpdate h (entryConsistent_ulist hce ?_)
            intro h1
            rw [h1, List.length_append, List.length_singleton]
            exact uintIncr _

theorem llen_sizeConsistent {s s' : State} {k : Str} {junk : SpatDBEntry}
    {r : Option Nat} (h : sizeConsistent s = true)
    (hj : junk.valtyp = .SPVAL_INVALID) (hs : llen s k junk = some (r, s')) :
    sizeConsistent s' = true := by
  cases hf : dbFind s k with
  | none =>
      simp only [llen, hf, Option.some.injEq, Prod.mk.injEq] at hs
      rw [← hs.2]
      exact sizeConsistent_cons h (entryConsistent_of_invalid hj)
  | some e =>
      obtain ⟨ea, evt, ev⟩ := e
      cases ev with
      | ustring b => simp [llen, hf] at hs
      | uset elems sz => simp [llen, hf] at hs
      | uhash fields sz => simp [llen, hf] at hs
      | ulist elems sz =>
          simp only [llen, hf, Option.some.injEq, Prod.mk.injEq] at hs
          rw [← hs.2]
          exact h

theorem lpop_sizeConsistent {s s' : State} {k : Str} {junk : SpatDBEntry}
    {r : Option Str} (h : sizeConsistent s = true)
    (hj : junk.valtyp = .SPVAL_INVALID) (hs : lpop s k junk = some (r, s')) :
    sizeConsistent s' = true := by
  cases hf : dbFind s k with
  | none =>
      simp only [lpop, hf, Option.some.injEq, Prod.mk.injEq] at hs
      rw [← hs.2]
      exact sizeConsistent_cons h (entryConsistent_of_invalid hj)
  | some e =>
      obtain ⟨ea, evt, ev⟩ := e
      by_cases hvt : evt = spValueType.SPVAL_LIST
      · subst hvt
        cases ev with
        | ustring b => simp [lpop, hf] at hs
        | uset elems sz => simp [lpop, hf] at hs
        | uhash fields sz => simp [lpop, hf] at hs
        | ulist elems sz =>
            have hce := sizeConsistent_of_mem h (dbFind_mem hf)
            by_cases hz : sz = 0
            · simp only [lpop, hf, if_pos hz, Option.some.injEq, Prod.mk.injEq,
                reduceIte] at hs
              rw [← hs.2]
              exact h
            · cases elems with
              | nil => simp [lpop, hf, hz] at hs
              | cons hd tl =>
                  simp only [lpop, hf, if_neg hz, Option.some.injEq,
                    Prod.mk.injEq, reduceIte] at hs
                  rw [← hs.2]
                  refine sizeConsistent_dbUpdate h (entryConsistent_ulist hce ?_)
                  intro h1
                  rw [h1, List.length_cons]
                  have := uintDecr (tl.length + 1) (by omega)
                  simpa using this
      · simp only [lpop, hf, if_neg hvt, Option.some.injEq, Prod.mk.injEq] at hs
        rw [← hs.2]
        exact h

theorem hset_sizeConsistent {s s' : State} {k f v : Str} {junk : SpatDBEntry}
    (h : sizeConsistent s = true) (hs : hset s k f v junk = some s') :
    sizeConsistent s' = true := by
  cases hf : dbFind s k with
  | none =>
      simp only [hset, hf, Option.some.injEq] at hs
      subst hs
      exact sizeConsistent_cons h rfl
  | some e =>
      obtain ⟨ea, evt, ev⟩ := e
      cases ev with
      | ustring b => simp [hset, hf] at hs
      | uset elems sz => simp [hset, hf] at hs
      | ulist elems sz => simp [hset, hf] at hs
      | uhash fields sz =>
          have hce := sizeConsistent_of_mem h (dbFind_mem hf)
          cases hff : hashFind fields f with
          | none =>
              simp only [hset, hf, hff, Option.some.injEq] at hs
              subst hs
              refine sizeConsistent_dbUpdate h (entryConsistent_uhash hce ?_)
              intro h1
              rw [h1, List.length_cons]
              exact uintIncr _
          | some v0 =>
              simp only [hset, hf, hff, Option.some.injEq] at hs
              subst hs
              refine sizeConsistent_dbUpdate h (entryConsistent_uhash hce ?_)
              intro h1
              rw [h1, length_hashUpdate]

theorem saddAll_uset_spec (ms : List Str) :
    ∀ (s : State) (k : Str) (ea : Int) (evt : spValueType) (elems : List Str)
      (sz : Nat) (junk : SpatDBEntry),
      dbFind s k = some ⟨ea, evt, .uset elems sz⟩ → sz < UINT32_MOD →
      (∀ m ∈ ms, m ∉ elems) → ms.Nodup →
      ∃ s' elems', saddAll s k ms junk = some s' ∧
        dbFind s' k =
          some ⟨ea, evt, .uset elems' ((sz + ms.length) % UINT32_MOD)⟩ ∧
        (∀ x, x ∈ elems' ↔ x ∈ ms ∨ x ∈ elems) := by
  induction ms with
  | nil =>
      intro s k ea evt elems sz junk hf hsz hnm hnd
      refine ⟨s, elems, rfl, ?_, ?_⟩
      · rw [List.length_nil, Nat.add_zero, Nat.mod_eq_of_lt hsz]
        exact hf
      · simp
  | cons m rest ih =>
      intro s k ea evt elems sz junk hf hsz hnm hnd
      have hm : m ∉ elems := hnm m (List.mem_cons_self m rest)
      have hstep : sadd s k m junk =
          some (dbUpdate s k
            ⟨ea, evt, .uset (m :: elems) ((sz + 1) % UINT32_MOD)⟩) := by
        simp [sadd, hf, hm]
      have hf1 : dbFind (dbUpdate s k
            ⟨ea, evt, .uset (m :: elems) ((sz + 1) % UINT32_MOD)⟩) k =
          some ⟨ea, evt, .uset (m :: elems) ((sz + 1) % UINT32_MOD)⟩ :=
        dbFind_dbUpdate_self _ hf
      obtain ⟨s', elems', hall, hff, hmem⟩ :=
        ih _ k ea evt (m :: elems) ((sz + 1) % UINT32_MOD) junk hf1
          (Nat.mod_lt _ (by simp [UINT32_MOD]))
          (fun x hx => by
            intro hcon
            rcases List.mem_cons.mp hcon with h1 | h1
            · exact (List.nodup_cons.mp hnd).1 (h1 ▸ hx)
            · exact hnm x (List.mem_cons_of_mem _ hx) h1)
          (List.nodup_cons.mp hnd).2
      refine ⟨s', elems', ?_, ?_, ?_⟩
      · simp only [saddAll, hstep]
        exact hall
      · have harith : ((sz + 1) % UINT32_MOD + rest.length) % UINT32_MOD =
            (sz + (m :: rest).length) % UINT32_MOD := by
          simp only [List.length_cons, UINT32_MOD]
          omega
        rw [← harith]
        exact hff
      · intro x
        rw [hmem x]
        simp only [List.mem_cons]
        tauto

/- ------------------------------------------------------------------
   Claim theorems.
   ------------------------------------------------------------------ -/

/-- C1, counterexample to the claim as stated: on a key that was never
written, scard does not return 0 and llen does not return 0; both
return SQL NULL. Concrete input: the empty database and the one-byte
key 97. -/
theorem C1_cex :
    ¬ (scard [] [97] = some (some 0) ∧
       (llen [] [97] junk0).map Prod.fst = some (some 0)) := by
  decide

/-- C1 (amended): for every key K that has never been written, sptype
returns the string null, spget returns no value, scard returns no value
(SQL NULL, not 0), and llen returns no value (SQL NULL, not 0) while
inserting a junk entry for K. -/
theorem C1_absent_key (s : State) (k : Str) (junk : SpatDBEntry)
    (h : dbFind s k = none) :
    sptype s k = some typeNameNull ∧ spget s k = some none ∧
    scard s k = some none ∧ llen s k junk = some (none, (k, junk) :: s) := by
  refine ⟨?_, ?_, ?_, ?_⟩ <;> simp [sptype, spget, scard, llen, h, spTypeName]

/-- C1 witness: the amended claim at the empty database and key 97. -/
theorem C1_absent_key_witness :
    sptype [] [97] = some typeNameNull ∧ spget [] [97] = some none ∧
    scard [] [97] = some none ∧
    llen [] [97] junk0 = some (none, ([97], junk0) :: []) :=
  C1_absent_key [] [97] junk0 (by decide)

/-- C2: for every starting state, key K and byte string value V
(byte strings include the empty sequence and sequences containing NUL
bytes: values are stored as verbatim copies of the length-prefixed
varlena, so no byte is interpreted), spset(K, V) followed by spget(K)
returns exactly V. -/
theorem C2_set_get_roundtrip (s : State) (k v : Str) (now : Int)
    (junk : SpatDBEntry) :
    (spset s k v none now junk).bind (fun p => spget p.2 k) =
      some (some (SPValue.sstring v)) := by
  cases h : dbFind s k with
  | none =>
      simp [spset, h, makeSpvalFromEntry, spget, dbFind_cons_self]
  | some e0 =>
      simp [spset, h, makeSpvalFromEntry, spget,
        dbFind_dbUpdate_self _ h]

/-- C3, counterexample to the claim as stated: key 107 is first set
with a 1-second TTL at time 0, then set again with no TTL; getexpireat
then still returns the old expiration timestamp 1000000 instead of the
no-value the claim requires for a key set without a TTL (spset never
clears or initializes the expireat field when no TTL is given). -/
theorem C3_cex :
    ((spset [] [107] [118] (some 1000000) 0 junk0).bind fun p =>
        (spset p.2 [107] [119] none 5 junk0).map fun q =>
          getexpireat q.2 [107]) = some (some 1000000) ∧
    some (1000000 : Int) ≠ none := by
  constructor
  · decide
  · decide

/-- C3 (amended): a key set with a positive TTL interval has
getexpireat, immediately after the set, return the set-time plus the
interval, which is strictly after the current time (provided the sum is
a representable timestamp); and a key set without a TTL keeps whatever
expiration its entry already carried: the set does not clear it, so
getexpireat afterwards returns no value only if the previous expireat
already held the never-expires sentinel. -/
theorem C3_ttl_expiry (s : State) (k v : Str) (now iv : Int)
    (junk : SpatDBEntry) (hpos : 0 < iv)
    (hlo : MIN_TIMESTAMP ≤ now + iv) (hhi : now + iv < END_TIMESTAMP) :
    (∃ r s', spset s k v (some iv) now junk = some (r, s') ∧
      getexpireat s' k = some (now + iv) ∧ now < now + iv) ∧
    (∀ e r2 s2, dbFind s k = some e →
      spset s k v none now junk = some (r2, s2) →
      ∃ e2, dbFind s2 k = some e2 ∧ e2.expireat = e.expireat) := by
  have hne : now + iv ≠ SpMaxTTL := by
    simp only [END_TIMESTAMP] at hhi
    simp only [SpMaxTTL]
    omega
  constructor
  · cases h : dbFind s k with
    | none =>
        refine ⟨.sstring v,
          (k, ⟨now + iv, .SPVAL_STRING, .ustring v⟩) :: s, ?_, ?_, by omega⟩
        · simp [spset, h, tsPlusInterval, hlo, hhi, makeSpvalFromEntry]
        · simp [getexpireat, dbFind_cons_self, hne]
    | some e0 =>
        refine ⟨.sstring v,
          dbUpdate s k ⟨now + iv, .SPVAL_STRING, .ustring v⟩, ?_, ?_, by omega⟩
        · simp [spset, h, tsPlusInterval, hlo, hhi, makeSpvalFromEntry]
        · simp [getexpireat, dbFind_dbUpdate_self _ h, hne]
  · intro e r2 s2 hf hs
    simp only [spset, hf, makeSpvalFromEntry, Option.map_some] at hs
    obtain ⟨-, hs2⟩ := Prod.mk.injEq .. ▸ Option.some.injEq .. ▸ hs
    refine ⟨⟨e.expireat, .SPVAL_STRING, .ustring v⟩, ?_, rfl⟩
    rw [← hs2]
    exact dbFind_dbUpdate_self _ hf

/-- C3 witness: the amended claim at the empty database, key 1,
value 2, current time 0 and TTL interval 1000000 microseconds. -/
theorem C3_ttl_expiry_witness :
    ((0 : Int) < 1000000) ∧
    (∃ r s', spset [] [1] [2] (some 1000000) 0 junk0 = some (r, s') ∧
      getexpireat s' [1] = some (0 + 1000000) ∧ (0 : Int) < 0 + 1000000) := by
  refine ⟨by decide, ?_⟩
  exact (C3_ttl_expiry [] [1] [2] 0 1000000 junk0 (by decide)
    (by decide) (by decide)).1

/-- C4: llen and lpop on a key with no existing entry insert a new
entry through dshash_find_or_insert and leave it in the table with all
of its non-key fields (value kind included) equal to the uninitialized
junk of the fresh allocation, so these read-style commands mutate the
database: sp_db_nitems afterwards is one more than before. -/
theorem C4_llen_lpop_autovivify (s : State) (k : Str) (junk : SpatDBEntry)
    (h : dbFind s k = none) :
    (∃ s', llen s k junk = some (none, s') ∧ nitems s' = nitems s + 1 ∧
      dbFind s' k = some junk) ∧
    (∃ s2, lpop s k junk = some (none, s2) ∧ nitems s2 = nitems s + 1 ∧
      dbFind s2 k = some junk) := by
  constructor
  · exact ⟨(k, junk) :: s, by simp [llen, h], by simp [nitems],
      dbFind_cons_self _ _ _⟩
  · exact ⟨(k, junk) :: s, by simp [lpop, h], by simp [nitems],
      dbFind_cons_self _ _ _⟩

/-- C4 witness: the claim at the empty database and key 97. -/
theorem C4_llen_lpop_autovivify_witness :
    (∃ s', llen [] [97] junk0 = some (none, s') ∧
      nitems s' = nitems [] + 1 ∧ dbFind s' [97] = some junk0) ∧
    (∃ s2, lpop [] [97] junk0 = some (none, s2) ∧
      nitems s2 = nitems [] + 1 ∧ dbFind s2 [97] = some junk0) :=
  C4_llen_lpop_autovivify [] [97] junk0 (by decide)

/-- C8, counterexample to the claim as stated: a single llen call on
the absent key 107 inserts an entry and leaves every non-key field
uninitialized; when the junk bytes of that entry read back as
discriminant SPVAL_SET with a stored size of 7 over an empty nested
structure, the resulting state is reachable yet has an entry of kind
Set whose size field differs from its live element count. -/
theorem C8_cex :
    Reachable [([107], ⟨0, .SPVAL_SET, .uset [] 7⟩)] ∧
    sizeConsistentExact [([107], ⟨0, .SPVAL_SET, .uset [] 7⟩)] = false :=
  ⟨Reachable.next Reachable.init
    (show step [] (SpatOp.opLlen [107] ⟨0, .SPVAL_SET, .uset [] 7⟩) =
        some [([107], ⟨0, .SPVAL_SET, .uset [] 7⟩)] from rfl),
   by decide⟩

/-- C8 (amended): in every state reachable from the empty database by
successful operations, provided the uninitialized value kind of the
entries that llen and lpop auto-insert on absent keys reads back as
Invalid rather than colliding with a real kind, every entry whose value
kind is Set, List or Hash stores in its uint32 size field the number of
live elements of its nested structure reduced modulo 2 ^ 32 (so exactly
that number whenever it is below 2 ^ 32): each operation increments or
decrements the field exactly once per successful nested insert or
delete and leaves it unchanged otherwise. -/
theorem C8_size_invariant (s : State) (h : ReachableInv s) :
    sizeConsistent s = true := by
  induction h with
  | init => rfl
  | next hr hj hstep ih =>
      rename_i s0 s1 op
      cases op with
      | opSpset k v ex now junk =>
          simp only [step, Option.map_eq_some'] at hstep
          obtain ⟨⟨r, s2⟩, hsp, hs2⟩ := hstep
          exact hs2 ▸ spset_sizeConsistent ih hsp
      | opDel k =>
          simp only [step, Option.some.injEq] at hstep
          exact hstep ▸ del_sizeConsistent ih
      | opSadd k m junk =>
          exact sadd_sizeConsistent ih hstep
      | opSrem k m =>
          simp only [step, Option.map_eq_some'] at hstep
          obtain ⟨⟨r, s2⟩, hsp, hs2⟩ := hstep
          exact hs2 ▸ srem_sizeConsistent ih hsp
      | opLpush k e junk =>
          exact lpush_sizeConsistent ih hstep
      | opRpush k e junk =>
          exact rpush_sizeConsistent ih hstep
      | opLpop k junk =>
          simp only [step, Option.map_eq_some'] at hstep
          obtain ⟨⟨r, s2⟩, hsp, hs2⟩ := hstep
          exact hs2 ▸ lpop_sizeConsistent ih (hj junk rfl) hsp
      | opLlen k junk =>
          simp only [step, Option.map_eq_some'] at hstep
          obtain ⟨⟨r, s2⟩, hsp, hs2⟩ := hstep
          exact hs2 ▸ llen_sizeConsistent ih (hj junk rfl) hsp
      | opHset k f v junk =>
          exact hset_sizeConsistent ih hstep

/-- C8 witness: the amended invariant evaluated on the state reached
from the empty database by sadd on key 107 with member 97. -/
theorem C8_size_invariant_witness :
    sizeConsistent [([107], ⟨0, .SPVAL_SET, .uset [[97]] 1⟩)] = true :=
  C8_size_invariant _
    (ReachableInv.next ReachableInv.init
      (fun j hj => by simp [opInsertedJunk] at hj)
      (show step [] (SpatOp.opSadd [107] [97] junk0) =
          some [([107], ⟨0, .SPVAL_SET, .uset [[97]] 1⟩)] from rfl))

/-- C9: N sadd callers with pairwise distinct members on one key that
has no prior entry. Each sadd holds the exclusive partition lock of the
dshash entry of that key from its dshash_find_or_insert until its final
dshash_release_lock, its nested insert included, so any concurrent
execution of the N calls is equivalent to executing them sequentially
in lock-acquisition order; quantifying over the member list therefore
covers every interleaving. Afterwards scard(K) = N and every member is
reported present by sismember. -/
theorem C9_concurrent_sadd (s : State) (k : Str) (ms : List Str)
    (junk : SpatDBEntry) (hnd : ms.Nodup) (habs : dbFind s k = none)
    (hne : ms ≠ []) (hlen : ms.length < UINT32_MOD) :
    ∃ s', saddAll s k ms junk = some s' ∧
      scard s' k = some (some ms.length) ∧
      ∀ m ∈ ms, sismember s' k m = some true := by
  cases ms with
  | nil => exact absurd rfl hne
  | cons m0 rest =>
      have hstep : sadd s k m0 junk =
          some ((k, ⟨junk.expireat, .SPVAL_SET, .uset [m0] 1⟩) :: s) := by
        simp [sadd, habs]
      have hf1 : dbFind ((k, ⟨junk.expireat, .SPVAL_SET, .uset [m0] 1⟩) :: s) k =
          some ⟨junk.expireat, .SPVAL_SET, .uset [m0] 1⟩ :=
        dbFind_cons_self _ _ _
      obtain ⟨s', elems', hall, hff, hmem⟩ :=
        saddAll_uset_spec rest _ k junk.expireat .SPVAL_SET [m0] 1 junk hf1
          (by simp [UINT32_MOD])
          (fun x hx => by
            simp only [List.mem_singleton]
            intro hcon
            exact (List.nodup_cons.mp hnd).1 (hcon ▸ hx))
          (List.nodup_cons.mp hnd).2
      have hsz : (1 + rest.length) % UINT32_MOD = (m0 :: rest).length := by
        simp only [List.length_cons] at hlen ⊢
        simp only [UINT32_MOD] at hlen ⊢
        omega
      rw [hsz] at hff
      refine ⟨s', ?_, ?_, ?_⟩
      · simp only [saddAll, hstep]
        exact hall
      · simp [scard, hff]
      · intro m hm
        have hmm : m ∈ elems' := by
          rw [hmem m]
          rcases List.mem_cons.mp hm with h1 | h1
          · exact Or.inr (by simp [h1])
          · exact Or.inl h1
        simp [sismember, hff, hmm]

/-- C9 witness: the claim at the empty database, key 9 and the three
distinct members 1, 2 and 3. -/
theorem C9_concurrent_sadd_witness :
    List.Nodup [[1], [2], [3]] ∧
    (∃ s', saddAll [] [9] [[1], [2], [3]] junk0 = some s' ∧
      scard s' [9] = some (some 3) ∧
      ∀ m ∈ [[1], [2], [3]], sismember s' [9] m = some true) := by
  refine ⟨by decide, ?_⟩
  have h := C9_concurrent_sadd [] [9] [[1], [2], [3]] junk0 (by decide)
    (by decide) (by decide) (by decide)
  simpa using h

/-- C10: scard on a key whose entry holds a value of a kind other than
Set returns SQL NULL: no error and no assertion failure (scard checks
the discriminant before touching the union, so the read is well defined
for every kind). The source performs only dshash_find followed by
dshash_release_lock here, never find_or_insert, which is why scard is
embedded as a read-only function of the state: it cannot mutate the
database. The second conjunct instantiates this for a key freshly
written by spset (kind String). -/
theorem C10_scard_non_set :
    (∀ (s : State) (k : Str) (e : SpatDBEntry), dbFind s k = some e →
      e.valtyp ≠ .SPVAL_SET → scard s k = some none) ∧
    (∀ (s : State) (k v : Str) (now : Int) (junk : SpatDBEntry) r s',
      spset s k v none now junk = some (r, s') → scard s' k = some none) := by
  constructor
  · intro s k e hf hne
    simp [scard, hf, hne]
  · intro s k v now junk r s' hs
    cases h : dbFind s k with
    | none =>
        simp only [spset, h, makeSpvalFromEntry, Option.map_some] at hs
        obtain ⟨-, hs2⟩ := Prod.mk.injEq .. ▸ Option.some.injEq .. ▸ hs
        rw [← hs2]
        simp [scard, dbFind_cons_self]
    | some e0 =>
        simp only [spset, h, makeSpvalFromEntry, Option.map_some] at hs
        obtain ⟨-, hs2⟩ := Prod.mk.injEq .. ▸ Option.some.injEq .. ▸ hs
        rw [← hs2]
        simp [scard, dbFind_dbUpdate_self _ h]

/-- C5: adding the same member twice. First conjunct: on a key with no
prior entry, sadd(K, M) twice yields scard(K) = 1, not 2. Second
conjunct, the general form: after any successful sadd(K, M), a second
sadd(K, M) succeeds and leaves the cardinality reported by scard
unchanged. -/
theorem C5_sadd_idempotent :
    (∀ (s : State) (k m : Str) (j1 j2 : SpatDBEntry), dbFind s k = none →
      ∃ s1 s2, sadd s k m j1 = some s1 ∧ sadd s1 k m j2 = some s2 ∧
        scard s2 k = some (some 1)) ∧
    (∀ (s : State) (k m : Str) (j1 j2 : SpatDBEntry) (s1 : State),
      sadd s k m j1 = some s1 →
      ∃ s2, sadd s1 k m j2 = some s2 ∧ scard s2 k = scard s1 k) := by
  constructor
  · intro s k m j1 j2 h
    refine ⟨(k, ⟨j1.expireat, .SPVAL_SET, .uset [m] 1⟩) :: s,
            (k, ⟨j1.expireat, .SPVAL_SET, .uset [m] 1⟩) :: s, ?_, ?_, ?_⟩
    · simp [sadd, h]
    · simp [sadd, dbFind_cons_self, dbUpdate_cons_self]
    · simp [scard, dbFind_cons_self]
  · intro s k m j1 j2 s1 hs
    cases h : dbFind s k with
    | none =>
        simp only [sadd, h, Option.some.injEq] at hs
        subst hs
        refine ⟨(k, ⟨j1.expireat, .SPVAL_SET, .uset [m] 1⟩) :: s, ?_, ?_⟩
        · simp [sadd, dbFind_cons_self, dbUpdate_cons_self]
        · simp [scard, dbFind_cons_self]
    | some e =>
        cases hve : e.value with
        | ustring b => simp [sadd, h, hve] at hs
        | ulist elems sz => simp [sadd, h, hve] at hs
        | uhash fields sz => simp [sadd, h, hve] at hs
        | uset elems sz =>
            by_cases hm : m ∈ elems
            · simp only [sadd, h, hve, if_pos hm, Option.some.injEq] at hs
              subst hs
              have hf1 : dbFind (dbUpdate s k ⟨e.expireat, e.valtyp, .uset elems sz⟩) k =
                  some ⟨e.expireat, e.valtyp, .uset elems sz⟩ :=
                dbFind_dbUpdate_self _ h
              refine ⟨dbUpdate (dbUpdate s k ⟨e.expireat, e.valtyp, .uset elems sz⟩) k
                  ⟨e.expireat, e.valtyp, .uset elems sz⟩, ?_, ?_⟩
              · simp [sadd, hf1, hm]
              · simp [scard, hf1, dbFind_dbUpdate_self _ hf1]
            · simp only [sadd, h, hve, if_neg hm, Option.some.injEq] at hs
              subst hs
              have hf1 : dbFind (dbUpdate s k
                    ⟨e.expireat, e.valtyp, .uset (m :: elems) ((sz + 1) % UINT32_MOD)⟩) k =
                  some ⟨e.expireat, e.valtyp, .uset (m :: elems) ((sz + 1) % UINT32_MOD)⟩ :=
                dbFind_dbUpdate_self _ h
              refine ⟨dbUpdate (dbUpdate s k
                    ⟨e.expireat, e.valtyp, .uset (m :: elems) ((sz + 1) % UINT32_MOD)⟩) k
                  ⟨e.expireat, e.valtyp, .uset (m :: elems) ((sz + 1) % UINT32_MOD)⟩, ?_, ?_⟩
              · simp [sadd, hf1]
              · simp [scard, hf1, dbFind_dbUpdate_self _ hf1]

/-- C5 witness: the fresh-key conjunct at the empty database, key 10
and member 20. -/
theorem C5_sadd_idempotent_witness :
    ∃ s1 s2, sadd [] [10] [20] junk0 = some s1 ∧
      sadd s1 [10] [20] junk0 = some s2 ∧ scard s2 [10] = some (some 1) :=
  C5_sadd_idempotent.1 [] [10] [20] junk0 junk0 (by decide)

/-- C6: on a key with no prior entry, lpush(K, a) then lpush(K, b)
followed by three lpop(K) calls returns b, then a, then no value: lpush
prepends at the head, lpop removes at the head, and popping an emptied
list returns SQL NULL without error and without changing the state. -/
theorem C6_list_ordering (s : State) (k a b : Str)
    (j1 j2 j3 j4 j5 : SpatDBEntry) (h : dbFind s k = none) :
    ∃ s1 s2 s3 s4, lpush s k a j1 = some s1 ∧ lpush s1 k b j2 = some s2 ∧
      lpop s2 k j3 = some (some b, s3) ∧ lpop s3 k j4 = some (some a, s4) ∧
      lpop s4 k j5 = some (none, s4) := by
  refine ⟨(k, ⟨j1.expireat, .SPVAL_LIST, .ulist [a] 1⟩) :: s,
          (k, ⟨j1.expireat, .SPVAL_LIST, .ulist [b, a] 2⟩) :: s,
          (k, ⟨j1.expireat, .SPVAL_LIST, .ulist [a] 1⟩) :: s,
          (k, ⟨j1.expireat, .SPVAL_LIST, .ulist [] 0⟩) :: s,
          ?_, ?_, ?_, ?_, ?_⟩
  · simp [lpush, h]
  · simp [lpush, dbFind_cons_self, dbUpdate_cons_self, UINT32_MOD]
  · simp [lpop, dbFind_cons_self, dbUpdate_cons_self, UINT32_MOD]
  · simp [lpop, dbFind_cons_self, dbUpdate_cons_self, UINT32_MOD]
  · simp [lpop, dbFind_cons_self]

/-- C6 witness: the claim at the empty database, key 7, elements 97
and 98. -/
theorem C6_list_ordering_witness :
    ∃ s1 s2 s3 s4,
      lpush [] [7] [97] junk0 = some s1 ∧ lpush s1 [7] [98] junk0 = some s2 ∧
      lpop s2 [7] junk0 = some (some [98], s3) ∧
      lpop s3 [7] junk0 = some (some [97], s4) ∧
      lpop s4 [7] junk0 = some (none, s4) :=
  C6_list_ordering [] [7] [97] [98] junk0 junk0 junk0 junk0 junk0 (by decide)

/-- C7: overwriting a hash field. After hset(K, F, x) succeeds on a key
that is absent or of hash kind, hset(K, F, y) succeeds, hget(K, F)
returns y, and the stored size field of the hash equals what it was
after the first hset: an existing field is overwritten, not duplicated,
and the size is not incremented. -/
theorem C7_hset_overwrite (s : State) (k f x y : Str) (j1 j2 : SpatDBEntry)
    (s1 : State) (hk : ∀ e, dbFind s k = some e → e.valtyp = .SPVAL_HASH)
    (h1 : hset s k f x j1 = some s1) :
    ∃ s2, hset s1 k f y j2 = some s2 ∧ hget s2 k f = some (some y) ∧
      hashSizeAt s2 k = hashSizeAt s1 k := by
  cases h : dbFind s k with
  | none =>
      simp only [hset, h, Option.some.injEq] at h1
      subst h1
      refine ⟨(k, ⟨j1.expireat, .SPVAL_HASH, .uhash [(f, y)] 1⟩) :: s, ?_, ?_, ?_⟩
      · simp [hset, dbFind_cons_self, dbUpdate_cons_self, hashFind, hashUpdate]
      · simp [hget, dbFind_cons_self, hashFind]
      · simp [hashSizeAt, dbFind_cons_self]
  | some e =>
      obtain ⟨ea, evt, ev⟩ := e
      have hvt : evt = .SPVAL_HASH := hk _ h
      subst hvt
      cases ev with
      | ustring b => simp [hset, h] at h1
      | uset elems sz => simp [hset, h] at h1
      | ulist elems sz => simp [hset, h] at h1
      | uhash fields sz =>
      cases hff : hashFind fields f with
      | none =>
          simp only [hset, h, hff, Option.some.injEq] at h1
          subst h1
          have hf1 : dbFind (dbUpdate s k
                ⟨ea, .SPVAL_HASH, .uhash ((f, x) :: fields) ((sz + 1) % UINT32_MOD)⟩) k =
              some ⟨ea, .SPVAL_HASH, .uhash ((f, x) :: fields) ((sz + 1) % UINT32_MOD)⟩ :=
            dbFind_dbUpdate_self _ h
          refine ⟨dbUpdate (dbUpdate s k
                ⟨ea, .SPVAL_HASH, .uhash ((f, x) :: fields) ((sz + 1) % UINT32_MOD)⟩) k
              ⟨ea, .SPVAL_HASH,
                .uhash (hashUpdate ((f, x) :: fields) f y) ((sz + 1) % UINT32_MOD)⟩,
            ?_, ?_, ?_⟩
          · simp [hset, hf1, hashFind]
          · simp [hget, dbFind_dbUpdate_self _ hf1, hashUpdate, hashFind]
          · simp [hashSizeAt, dbFind_dbUpdate_self _ hf1, hf1]
      | some v0 =>
          simp only [hset, h, hff, Option.some.injEq] at h1
          subst h1
          have hf1 : dbFind (dbUpdate s k
                ⟨ea, .SPVAL_HASH, .uhash (hashUpdate fields f x) sz⟩) k =
              some ⟨ea, .SPVAL_HASH, .uhash (hashUpdate fields f x) sz⟩ :=
            dbFind_dbUpdate_self _ h
          have hfx : hashFind (hashUpdate fields f x) f = some x :=
            hashFind_hashUpdate_self x hff
          refine ⟨dbUpdate (dbUpdate s k
                ⟨ea, .SPVAL_HASH, .uhash (hashUpdate fields f x) sz⟩) k
              ⟨ea, .SPVAL_HASH,
                .uhash (hashUpdate (hashUpdate fields f x) f y) sz⟩, ?_, ?_, ?_⟩
          · simp [hset, hf1, hfx]
          · simp [hget, dbFind_dbUpdate_self _ hf1,
              hashFind_hashUpdate_self y hfx]
          · simp [hashSizeAt, dbFind_dbUpdate_self _ hf1, hf1]

/-- C7 witness: the claim at the empty database, key 104, field 102,
first value 120, second value 121. -/
theorem C7_hset_overwrite_witness :
    ∃ s2, hset [([104], ⟨0, .SPVAL_HASH, .uhash [([102], [120])] 1⟩)]
        [104] [102] [121] junk0 = some s2 ∧
      hget s2 [104] [102] = some (some [121]) ∧
      hashSizeAt s2 [104] =
        hashSizeAt [([104], ⟨0, .SPVAL_HASH, .uhash [([102], [120])] 1⟩)] [104] :=
  C7_hset_overwrite [] [104] [102] [120] [121] junk0 junk0
    [([104], ⟨0, .SPVAL_HASH, .uhash [([102], [120])] 1⟩)]
    (fun e he => by simp [dbFind] at he) (by decide)

/-- C10 witness: scard returns SQL NULL on a database holding one
string entry under key 5, both through the direct statement and after
the spset that created the entry. -/
theorem C10_scard_non_set_witness :
    scard [([5], ⟨0, .SPVAL_STRING, .ustring [1]⟩)] [5] = some none :=
  C10_scard_non_set.1 [([5], ⟨0, .SPVAL_STRING, .ustring [1]⟩)] [5]
    ⟨0, .SPVAL_STRING, .ustring [1]⟩ (by decide) (by decide)

end Spat
